import Mathlib

/-!
Verification development for the SMTPlan layered SMT encoding engine
(`SMTPlan/include/SMTPlan/Encoder.h`).

The repository ships the `Encoder` class header: the data-member layout,
the `EncState` enumeration, the inline constructor and the inline
`mk_or` / `mk_and` helpers are embedded here directly from that source.
The bodies of the encoding methods (`encode`, `encodeHeader`,
`encodeTimings`, `encodeLiteralVariableSupport`, `encodeInitialState`,
`encodeGoalState`, the visitor methods) are not part of the shipped
sources; where a property depends on them, the corresponding definition
is modelled from the specification and carries a doc comment starting
with `Modelled from the spec:`.
-/

namespace SMTPlan

/-- The `EncState` enumeration of `Encoder.h` (lines 29-38): the mutually
exclusive tag recording which syntactic context the expression walker is
currently producing constraints for. -/
inductive EncState where
  | ENC_NONE
  | ENC_INIT
  | ENC_GOAL
  | ENC_LITERAL
  | ENC_ACTION_CONDITION
  | ENC_ACTION_DURATION
  | ENC_ACTION_EFFECT
deriving DecidableEq, Repr

/-- Modelled from the spec: the ground problem model (spec section 3 and 6).
Ground literals are integer indices below `litCount`, numeric fluents
indices below `pneCount`, ground actions indices below `actCount`.  The
four simple-effect tables mirror `simpleStartAddEffects` /
`simpleStartDelEffects` / `simpleEndAddEffects` / `simpleEndDelEffects`
of `Encoder.h` (lines 63-66): indexed by literal, each entry holding the
indices of the actions with that effect (the tables are sized by
`litCount` in the constructor, lines 120-123).  `startAssign` / `endAssign`
abstract the assign-effect maps (lines 67-68) to the set of actions that
assign each fluent; the assigned value expression is abstracted away.
`precond` gives each action's at-start simple preconditions as
(literal, required truth value) pairs, `initLit` / `initFn` the declared
initial state, and `goal` the goal literal requirements evaluated against
final-layer post-values. -/
structure GroundProblem where
  litCount : Nat
  pneCount : Nat
  actCount : Nat
  startAdd : Nat → List Nat
  startDel : Nat → List Nat
  endAdd : Nat → List Nat
  endDel : Nat → List Nat
  startAssign : Nat → List Nat
  endAssign : Nat → List Nat
  precond : Nat → List (Nat × Bool)
  initLit : Nat → Bool
  initFn : Nat → Rat
  goal : List (Nat × Bool)

/-- Modelled from the spec: a valuation of the SMT variables declared in
`Encoder.h` (lines 72-81), one instance per entity per layer.  `preL` /
`posL` value the `pre_literal_vars` / `pos_literal_vars`, `preF` / `posF`
the `pre_function_vars` / `pos_function_vars`, `staA` / `endA` the
`sta_action_vars` / `end_action_vars` activity indicators, and `timeV`
the layer `time_vars`.  A model of the constraint set is such a valuation
making every asserted constraint true. -/
structure PModel where
  preL : Nat → Nat → Bool
  posL : Nat → Nat → Bool
  preF : Nat → Nat → Rat
  posF : Nat → Nat → Rat
  staA : Nat → Nat → Bool
  endA : Nat → Nat → Bool
  timeV : Nat → Rat

/-- Modelled from the spec: some action with literal `l` in its add effect
tables is active at layer `n` (start adders through their start indicator,
end adders through their end indicator). -/
def addActive (P : GroundProblem) (M : PModel) (l n : Nat) : Bool :=
  (P.startAdd l).any (fun a => M.staA a n) || (P.endAdd l).any (fun a => M.endA a n)

/-- Modelled from the spec: some action with literal `l` in its delete
effect tables is active at layer `n`. -/
def delActive (P : GroundProblem) (M : PModel) (l n : Nat) : Bool :=
  (P.startDel l).any (fun a => M.staA a n) || (P.endDel l).any (fun a => M.endA a n)

/-- Modelled from the spec: some action assigning fluent `f` is active at
layer `n`. -/
def asgActive (P : GroundProblem) (M : PModel) (f n : Nat) : Bool :=
  (P.startAssign f).any (fun a => M.staA a n) || (P.endAssign f).any (fun a => M.endA a n)

/-- Modelled from the spec: the literal frame axiom emitted by
`encodeLiteralVariableSupport` (spec section 4.3 step 3): the post-value of
literal `l` at layer `n` may differ from its pre-value only with the
support of an active action having `l` in the corresponding effect table. -/
def litSupportOK (P : GroundProblem) (M : PModel) (l n : Nat) : Bool :=
  (!(M.posL l n && !(M.preL l n)) || addActive P M l n) &&
  (!(!(M.posL l n) && M.preL l n) || delActive P M l n)

/-- Modelled from the spec: the effect axiom (spec section 4.3 step 3):
when an action with `l` in its add (delete) tables is active at layer `n`,
the post-value equals the effect polarity. -/
def litEffectOK (P : GroundProblem) (M : PModel) (l n : Nat) : Bool :=
  (!(addActive P M l n) || M.posL l n) && (!(delActive P M l n) || !(M.posL l n))

/-- Modelled from the spec: the guarding mutual-exclusion constraint
(spec section 7b): an active add effect and an active delete effect on the
same literal in the same layer are forbidden. -/
def litMutexOK (P : GroundProblem) (M : PModel) (l n : Nat) : Bool :=
  !(addActive P M l n && delActive P M l n)

/-- Modelled from the spec: the fluent frame axiom emitted by
`encodeFunctionVariableSupport`: the post-value of fluent `f` at layer `n`
equals its pre-value unless some action assigning `f` is active. -/
def fnSupportOK (P : GroundProblem) (M : PModel) (f n : Nat) : Bool :=
  decide (M.posF f n = M.preF f n) || asgActive P M f n

/-- Modelled from the spec: action conditions are asserted as implications
(spec section 4.3 step 5): action active at layer `n` implies its
precondition literals hold on the layer-`n` pre-values. -/
def condOK (P : GroundProblem) (M : PModel) (a n : Nat) : Bool :=
  !(M.staA a n) || (P.precond a).all (fun lb => M.preL lb.1 n == lb.2)

/-- Modelled from the spec: all per-layer constraints of layer `n`
(literal support, effect and mutual-exclusion axioms for each ground
literal, fluent support for each fluent, guarded conditions for each
action). -/
def layerOK (P : GroundProblem) (M : PModel) (n : Nat) : Bool :=
  (List.range P.litCount).all
      (fun l => litSupportOK P M l n && litEffectOK P M l n && litMutexOK P M l n) &&
  (List.range P.pneCount).all (fun f => fnSupportOK P M f n) &&
  (List.range P.actCount).all (fun a => condOK P M a n)

/-- Modelled from the spec: layer chaining (spec section 3, Layer
invariant): layer `n+1` pre-values are linked to layer `n` post-values. -/
def linkOK (P : GroundProblem) (M : PModel) (n : Nat) : Bool :=
  (List.range P.litCount).all (fun l => M.preL l (n+1) == M.posL l n) &&
  (List.range P.pneCount).all (fun f => decide (M.preF f (n+1) = M.posF f n))

/-- Modelled from the spec: the constraints emitted by
`encodeInitialState` (spec section 4.3): every literal's layer-0 pre-value
equals its declared initial truth and every fluent's layer-0 pre-value its
declared initial value. -/
def initOK (P : GroundProblem) (M : PModel) : Bool :=
  (List.range P.litCount).all (fun l => M.preL l 0 == P.initLit l) &&
  (List.range P.pneCount).all (fun f => decide (M.preF f 0 = P.initFn f))

/-- Modelled from the spec: the timing constraints emitted by
`encodeTimings` (spec section 4.3 step 2): for every layer `n > 0`, the
layer time is at least the previous layer's time.  (The per-action
duration-range constraints are abstracted away; they do not bear on the
properties proved here.) -/
def timingsOK (M : PModel) (H : Nat) : Bool :=
  (List.range H).all (fun n => decide (M.timeV n ≤ M.timeV (n+1)))

/-- Modelled from the spec: the goal constraints emitted by
`encodeGoalState` at the final layer `H`, against layer-`H` post-values. -/
def goalOK (P : GroundProblem) (M : PModel) (H : Nat) : Bool :=
  P.goal.all (fun lb => M.posL lb.1 H == lb.2)

/-- Modelled from the spec: `M` is a model of the full constraint set
built by `encode(H)`: initial-state constraints, timing constraints,
per-layer constraints for layers `0..H`, layer-chaining constraints
between consecutive layers, and the goal constraints at layer `H`. -/
def encodeOK (P : GroundProblem) (M : PModel) (H : Nat) : Bool :=
  initOK P M && timingsOK M H &&
  (List.range (H+1)).all (fun n => layerOK P M n) &&
  (List.range H).all (fun n => linkOK P M n) &&
  goalOK P M H

/-- A shallow embedding of the Z3 expression handles (`Z3_ast`) the
encoder manipulates: named Boolean variables and n-ary disjunction /
conjunction nodes, the node kinds built by `mk_or` / `mk_and`. -/
inductive Z3Expr where
  | boolVar : String → Z3Expr
  | orN : List Z3Expr → Z3Expr
  | andN : List Z3Expr → Z3Expr

/-- Embeds `Encoder::mk_or` (`Encoder.h` lines 95-99): the arguments are
copied one by one into a `std::vector` (so the copied array equals the
argument vector exactly) and `Z3_mk_or` is applied to the address of the
array's element 0.  On an empty argument vector, `array[0]` indexes an
empty `std::vector`, an out-of-bounds access; the embedding returns
`none` there. -/
def mk_or (args : List Z3Expr) : Option Z3Expr :=
  match args with
  | [] => none
  | _ :: _ => some (Z3Expr.orN args)

/-- Embeds `Encoder::mk_and` (`Encoder.h` lines 101-105): same shape as
`mk_or`, building the conjunction node; on an empty argument vector, the
out-of-bounds `array[0]` access is returned as `none`. -/
def mk_and (args : List Z3Expr) : Option Z3Expr :=
  match args with
  | [] => none
  | _ :: _ => some (Z3Expr.andN args)

/-- Modelled from the spec: the planner-options configuration supplied to
the `Encoder` constructor (spec section 6): the recognized options include
the solver tactic name, the horizon increment and the numeric-theory
selection.  The underlying `PlannerOptions` type is not part of the
shipped sources. -/
structure PlannerOptions where
  solver_tactic_name : String
  horizon_increment : Nat
  numeric_theory : String
deriving DecidableEq, Repr

/-- Embeds the state of an `Encoder` object as set up by its constructor
and mutated by the visitor methods: `next_layer`, the four simple-effect
tables (`Encoder.h` lines 63-66, each sized by the ground literal count,
each entry holding action indices), the recorded `initialState` (line 69),
the encoding-state tag (line 57), the name of the tactic passed to
`z3::tactic` (line 139), and a count of constraints asserted into the
solver so far. -/
structure EncoderData where
  next_layer : Nat
  enc_state : EncState
  simpleStartAddEffects : List (List Nat)
  simpleStartDelEffects : List (List Nat)
  simpleEndAddEffects : List (List Nat)
  simpleEndDelEffects : List (List Nat)
  initialState : List Bool
  z3_tactic : String
  asserted : Nat
deriving DecidableEq, Repr

/-- Embeds the `Encoder` constructor (`Encoder.h` lines 109-141):
`next_layer` starts at 0; the four simple-effect tables are created with
`litCount` empty entries; `initialState` with `litCount` default entries;
and the tactic is created as `z3::tactic(*z3_context, "qfnra-nlsat")` —
the `options` parameter is not consulted for the tactic (nor anywhere
else in the constructor body). -/
def encoderCtor (litCount pneCount actCount : Nat) (options : PlannerOptions) :
    EncoderData :=
  { next_layer := 0
    enc_state := EncState.ENC_NONE
    simpleStartAddEffects := List.replicate litCount []
    simpleStartDelEffects := List.replicate litCount []
    simpleEndAddEffects := List.replicate litCount []
    simpleEndDelEffects := List.replicate litCount []
    initialState := List.replicate litCount false
    z3_tactic := "qfnra-nlsat"
    asserted := 0 }

/-- Appends action index `a` to the table entry of literal `l` in a
simple-effect table indexed by literal. -/
def recordAt (t : List (List Nat)) (l a : Nat) : List (List Nat) :=
  t.set l (t.getD l [] ++ [a])

/-- Modelled from the spec: `visit_simple_effect` (spec section 4.2,
declared at `Encoder.h` line 159), dispatching on the encoding state.  In
state `ENC_ACTION_EFFECT` the owning action's index is recorded into the
effect table selected by the effect's polarity (`isAdd`) and timing
(`atStart`) at the visited literal's entry, and nothing is asserted; in
state `ENC_INIT` an add effect records the literal as initially true;
other states leave the encoder unchanged.  The tables are indexed by
literal and hold action indices, matching their `litCount` sizing in the
constructor (`Encoder.h` lines 120-123). -/
def visit_simple_effect (c : EncoderData) (lit : Nat) (isAdd atStart : Bool)
    (owner : Nat) : EncoderData :=
  match c.enc_state with
  | EncState.ENC_ACTION_EFFECT =>
    if isAdd then
      if atStart then
        { c with simpleStartAddEffects := recordAt c.simpleStartAddEffects lit owner }
      else
        { c with simpleEndAddEffects := recordAt c.simpleEndAddEffects lit owner }
    else
      if atStart then
        { c with simpleStartDelEffects := recordAt c.simpleStartDelEffects lit owner }
      else
        { c with simpleEndDelEffects := recordAt c.simpleEndDelEffects lit owner }
  | EncState.ENC_INIT =>
    if isAdd then { c with initialState := c.initialState.set lit true } else c
  | _ => c

/-- Modelled from the spec: a top-level `encode(H)` call on the encoder
object (spec sections 4.3 and 6).  The encoding-state tag is reset at the
start of the call; the initial-state phase (state `ENC_INIT`) visits the
declared initial simple effects through `visit_simple_effect`; the
remaining phases advance `next_layer` past `H`; the state returns to
`ENC_NONE` between phases and at the end of the call. -/
def encodeCall (c : EncoderData) (initEffects : List Nat) (H : Nat) :
    EncoderData :=
  let c0 : EncoderData := { c with enc_state := EncState.ENC_NONE }
  let c1 : EncoderData := { c0 with enc_state := EncState.ENC_INIT }
  let c2 : EncoderData := initEffects.foldl (fun acc l => visit_simple_effect acc l true true 0) c1
  { c2 with enc_state := EncState.ENC_NONE, next_layer := H + 1 }

/-- Counts of allocated symbolic variables, one field per variable table
of `Encoder.h` lines 72-81: the layer time variables, the pre/post
function-value variables, the pre/post literal-truth variables, and the
four per-action role variables (start, end, running, duration). -/
structure VarStore where
  time_vars : Nat
  pre_function_vars : Nat
  pos_function_vars : Nat
  pre_literal_vars : Nat
  pos_literal_vars : Nat
  sta_action_vars : Nat
  end_action_vars : Nat
  run_action_vars : Nat
  dur_action_vars : Nat
deriving DecidableEq, Repr

/-- Modelled from the spec: the variable allocation `encodeHeader`
performs when growing the backing storage for one new layer (spec section
4.1): one new variable per role per entity — literal-pre and literal-post
for each ground literal, fluent-pre and fluent-post for each fluent,
start / end / running / duration for each ground action, and one layer
time variable — appended to the per-table storage declared at
`Encoder.h` lines 72-81. -/
def encodeHeaderLayer (litCount pneCount actCount : Nat) (vs : VarStore) :
    VarStore :=
  { time_vars := vs.time_vars + 1
    pre_function_vars := vs.pre_function_vars + pneCount
    pos_function_vars := vs.pos_function_vars + pneCount
    pre_literal_vars := vs.pre_literal_vars + litCount
    pos_literal_vars := vs.pos_literal_vars + litCount
    sta_action_vars := vs.sta_action_vars + actCount
    end_action_vars := vs.end_action_vars + actCount
    run_action_vars := vs.run_action_vars + actCount
    dur_action_vars := vs.dur_action_vars + actCount }

/-- Total number of allocated symbolic variables across all tables. -/
def totalVars (vs : VarStore) : Nat :=
  vs.time_vars + vs.pre_function_vars + vs.pos_function_vars +
  vs.pre_literal_vars + vs.pos_literal_vars + vs.sta_action_vars +
  vs.end_action_vars + vs.run_action_vars + vs.dur_action_vars

/-- The empty variable store, before any layer is encoded. -/
def emptyVars : VarStore :=
  { time_vars := 0, pre_function_vars := 0, pos_function_vars := 0
    pre_literal_vars := 0, pos_literal_vars := 0, sta_action_vars := 0
    end_action_vars := 0, run_action_vars := 0, dur_action_vars := 0 }

/-! ### Characterization lemmas -/

theorem all_range_iff {k : Nat} {p : Nat → Bool} :
    (List.range k).all p = true ↔ ∀ n, n < k → p n = true := by
  simp [List.all_eq_true, List.mem_range]

theorem initOK_iff (P : GroundProblem) (M : PModel) :
    initOK P M = true ↔
      ((∀ l, l < P.litCount → M.preL l 0 = P.initLit l) ∧
       (∀ f, f < P.pneCount → M.preF f 0 = P.initFn f)) := by
  simp [initOK, List.all_eq_true, List.mem_range]

theorem timingsOK_iff (M : PModel) (H : Nat) :
    timingsOK M H = true ↔ ∀ n, n < H → M.timeV n ≤ M.timeV (n+1) := by
  simp [timingsOK, List.all_eq_true, List.mem_range]

theorem goalOK_iff (P : GroundProblem) (M : PModel) (H : Nat) :
    goalOK P M H = true ↔ ∀ lb ∈ P.goal, M.posL lb.1 H = lb.2 := by
  simp [goalOK, List.all_eq_true]

theorem linkOK_iff (P : GroundProblem) (M : PModel) (n : Nat) :
    linkOK P M n = true ↔
      ((∀ l, l < P.litCount → M.preL l (n+1) = M.posL l n) ∧
       (∀ f, f < P.pneCount → M.preF f (n+1) = M.posF f n)) := by
  simp [linkOK, List.all_eq_true, List.mem_range]

theorem layerOK_iff (P : GroundProblem) (M : PModel) (n : Nat) :
    layerOK P M n = true ↔
      ((∀ l, l < P.litCount →
          litSupportOK P M l n = true ∧ litEffectOK P M l n = true ∧
          litMutexOK P M l n = true) ∧
       (∀ f, f < P.pneCount → fnSupportOK P M f n = true) ∧
       (∀ a, a < P.actCount → condOK P M a n = true)) := by
  simp [layerOK, List.all_eq_true, List.mem_range, and_assoc]

theorem encodeOK_iff (P : GroundProblem) (M : PModel) (H : Nat) :
    encodeOK P M H = true ↔
      (initOK P M = true ∧ timingsOK M H = true ∧
       (∀ n, n ≤ H → layerOK P M n = true) ∧
       (∀ n, n < H → linkOK P M n = true) ∧
       goalOK P M H = true) := by
  simp [encodeOK, List.all_eq_true, List.mem_range, Nat.lt_succ_iff, and_assoc]

theorem addActive_iff (P : GroundProblem) (M : PModel) (l n : Nat) :
    addActive P M l n = true ↔
      ((∃ a ∈ P.startAdd l, M.staA a n = true) ∨
       (∃ a ∈ P.endAdd l, M.endA a n = true)) := by
  simp [addActive, List.any_eq_true]

theorem delActive_iff (P : GroundProblem) (M : PModel) (l n : Nat) :
    delActive P M l n = true ↔
      ((∃ a ∈ P.startDel l, M.staA a n = true) ∨
       (∃ a ∈ P.endDel l, M.endA a n = true)) := by
  simp [delActive, List.any_eq_true]

/-! ### The claims -/

/-- C10: `mk_or` and `mk_and` are well-defined only for a non-empty
argument vector: for every non-empty `args` they build the Z3 disjunction
(resp. conjunction) node over exactly those arguments, while calling
either with an empty argument vector performs an out-of-bounds access on
an empty vector (modelled as `none`). -/
theorem mk_or_mk_and_nonempty :
    (∀ args : List Z3Expr, args ≠ [] →
        mk_or args = some (Z3Expr.orN args) ∧
        mk_and args = some (Z3Expr.andN args)) ∧
    mk_or [] = none ∧ mk_and [] = none := by
  refine ⟨?_, rfl, rfl⟩
  intro args h
  cases args with
  | nil => exact absurd rfl h
  | cons a t => exact ⟨rfl, rfl⟩

/-- Witness for C10 at the singleton argument vector. -/
theorem mk_or_mk_and_nonempty_witness :
    mk_or [Z3Expr.boolVar "x"] = some (Z3Expr.orN [Z3Expr.boolVar "x"]) ∧
    mk_and [Z3Expr.boolVar "x"] = some (Z3Expr.andN [Z3Expr.boolVar "x"]) :=
  mk_or_mk_and_nonempty.1 [Z3Expr.boolVar "x"] (by simp)

/-- C8 counterexample: the constructor creates the tactic as
`z3::tactic(*z3_context, "qfnra-nlsat")` regardless of the options object;
an Encoder constructed with solver-tactic-name option `"smt"` does not use
the named tactic. -/
theorem tactic_option_ignored_cex :
    (encoderCtor 1 1 1
        { solver_tactic_name := "smt", horizon_increment := 1,
          numeric_theory := "qfnra" }).z3_tactic = "qfnra-nlsat" ∧
    ¬ ((encoderCtor 1 1 1
        { solver_tactic_name := "smt", horizon_increment := 1,
          numeric_theory := "qfnra" }).z3_tactic = "smt") := by
  exact ⟨rfl, by decide⟩

/-- C8 (amended): the Encoder constructed with any options object uses the
fixed built-in tactic `"qfnra-nlsat"` when creating its solver; the
solver-tactic-name option is ignored. -/
theorem z3_tactic_fixed (litCount pneCount actCount : Nat)
    (options : PlannerOptions) :
    (encoderCtor litCount pneCount actCount options).z3_tactic = "qfnra-nlsat" :=
  rfl

/-- C6 counterexample: on a problem with one literal, one fluent and one
action, growing the storage for one layer allocates 9 variables (both a
pre and a post variable per literal and per fluent), not
`litCount + pneCount + actCount*4 + 1 = 7` as claimed. -/
theorem layer_var_growth_cex :
    totalVars (encodeHeaderLayer 1 1 1 emptyVars) = 9 ∧
    ¬ (totalVars (encodeHeaderLayer 1 1 1 emptyVars) = 1 + 1 + 1 * 4 + 1) := by
  exact ⟨rfl, by decide⟩

/-- C6 (amended): growing the backing variable storage for one new layer
allocates exactly `2*litCount + 2*pneCount + 4*actCount + 1` new symbolic
variables: a pre and a post literal variable per ground literal, a pre and
a post value variable per fluent, four role variables per action, and one
layer time variable. -/
theorem layer_var_growth (litCount pneCount actCount : Nat) (vs : VarStore) :
    totalVars (encodeHeaderLayer litCount pneCount actCount vs) =
      totalVars vs + (2 * litCount + 2 * pneCount + 4 * actCount + 1) := by
  simp [totalVars, encodeHeaderLayer]
  ring

/-- The encoder context used to exercise the effect-recording visitor:
three ground literals, five ground actions, encoding state
`ENC_ACTION_EFFECT`. -/
def effCtx : EncoderData :=
  { encoderCtor 3 0 5
      { solver_tactic_name := "qfnra-nlsat", horizon_increment := 1,
        numeric_theory := "qfnra" } with
    enc_state := EncState.ENC_ACTION_EFFECT }

/-- C7 counterexample: the simple-effect tables are sized by the ground
literal count, not the action count (constructor, `Encoder.h` lines
120-123): with 3 literals and 5 actions the table has 3 entries, not one
entry per owning action; and a visited start-add effect on literal 2 owned
by action 4 records the action index 4 at the literal's entry. -/
theorem effect_table_per_literal_cex :
    effCtx.simpleStartAddEffects.length = 3 ∧
    ¬ (effCtx.simpleStartAddEffects.length = 5) ∧
    (visit_simple_effect effCtx 2 true true 4).simpleStartAddEffects =
      [[], [], [4]] := by
  refine ⟨rfl, by decide, ?_⟩
  rfl

/-- C7 (amended): when a simple literal effect is visited while the
encoding state is `ENC_ACTION_EFFECT`, the encoder records the owning
action's index into the appropriate
simpleStart/End Add/Del table at the visited literal's entry (one table
entry per ground literal, holding action indices), and asserts no
constraint at that moment. -/
theorem visit_simple_effect_records (c : EncoderData) (lit owner : Nat)
    (h : c.enc_state = EncState.ENC_ACTION_EFFECT) :
    (visit_simple_effect c lit true true owner).simpleStartAddEffects =
        recordAt c.simpleStartAddEffects lit owner ∧
    (visit_simple_effect c lit true true owner).asserted = c.asserted ∧
    (visit_simple_effect c lit false true owner).simpleStartDelEffects =
        recordAt c.simpleStartDelEffects lit owner ∧
    (visit_simple_effect c lit false true owner).asserted = c.asserted ∧
    (visit_simple_effect c lit true false owner).simpleEndAddEffects =
        recordAt c.simpleEndAddEffects lit owner ∧
    (visit_simple_effect c lit true false owner).asserted = c.asserted ∧
    (visit_simple_effect c lit false false owner).simpleEndDelEffects =
        recordAt c.simpleEndDelEffects lit owner ∧
    (visit_simple_effect c lit false false owner).asserted = c.asserted := by
  simp [visit_simple_effect, h]

/-- Witness for C7 (amended) at a concrete encoder context. -/
theorem visit_simple_effect_records_witness :
    (visit_simple_effect effCtx 1 true true 0).simpleStartAddEffects =
        recordAt effCtx.simpleStartAddEffects 1 0 ∧
    (visit_simple_effect effCtx 1 true true 0).asserted = effCtx.asserted ∧
    (visit_simple_effect effCtx 1 false true 0).simpleStartDelEffects =
        recordAt effCtx.simpleStartDelEffects 1 0 ∧
    (visit_simple_effect effCtx 1 false true 0).asserted = effCtx.asserted ∧
    (visit_simple_effect effCtx 1 true false 0).simpleEndAddEffects =
        recordAt effCtx.simpleEndAddEffects 1 0 ∧
    (visit_simple_effect effCtx 1 true false 0).asserted = effCtx.asserted ∧
    (visit_simple_effect effCtx 1 false false 0).simpleEndDelEffects =
        recordAt effCtx.simpleEndDelEffects 1 0 ∧
    (visit_simple_effect effCtx 1 false false 0).asserted = effCtx.asserted :=
  visit_simple_effect_records effCtx 1 0 rfl

/-- C9: the encoding-state field holds exactly one of the seven mutually
exclusive `EncState` tags, and it is reset at the start of each top-level
encoding call: the result of `encodeCall` is independent of the incoming
encoding state, and the call leaves the state at `ENC_NONE`. -/
theorem enc_state_seven_tags_reset :
    (∀ s : EncState,
      s = EncState.ENC_NONE ∨ s = EncState.ENC_INIT ∨ s = EncState.ENC_GOAL ∨
      s = EncState.ENC_LITERAL ∨ s = EncState.ENC_ACTION_CONDITION ∨
      s = EncState.ENC_ACTION_DURATION ∨ s = EncState.ENC_ACTION_EFFECT) ∧
    (∀ (c : EncoderData) (s : EncState) (initEffects : List Nat) (H : Nat),
      encodeCall { c with enc_state := s } initEffects H =
        encodeCall c initEffects H ∧
      (encodeCall c initEffects H).enc_state = EncState.ENC_NONE) := by
  constructor
  · intro s
    cases s
    · exact Or.inl rfl
    · exact Or.inr (Or.inl rfl)
    · exact Or.inr (Or.inr (Or.inl rfl))
    · exact Or.inr (Or.inr (Or.inr (Or.inl rfl)))
    · exact Or.inr (Or.inr (Or.inr (Or.inr (Or.inl rfl))))
    · exact Or.inr (Or.inr (Or.inr (Or.inr (Or.inr (Or.inl rfl)))))
    · exact Or.inr (Or.inr (Or.inr (Or.inr (Or.inr (Or.inr rfl)))))
  · intro c s initEffects H
    exact ⟨rfl, rfl⟩

/-- A one-literal, one-fluent, one-action ground problem whose action has
no effects, no preconditions and no assignments; the literal is initially
true and the goal asks for it. -/
def nopProb : GroundProblem :=
  { litCount := 1, pneCount := 1, actCount := 1
    startAdd := fun _ => [], startDel := fun _ => []
    endAdd := fun _ => [], endDel := fun _ => []
    startAssign := fun _ => [], endAssign := fun _ => []
    precond := fun _ => [], initLit := fun _ => true, initFn := fun _ => 0
    goal := [(0, true)] }

/-- The constant valuation: every literal variable true, every fluent 0,
no action active, time 0 at every layer.  It satisfies `nopProb`'s
constraint set at every horizon. -/
def nopModel : PModel :=
  { preL := fun _ _ => true, posL := fun _ _ => true
    preF := fun _ _ => 0, posF := fun _ _ => 0
    staA := fun _ _ => false, endA := fun _ _ => false
    timeV := fun _ => 0 }

/-- C1: for every ground literal `l` and layer `n ≤ H` of an encoding
produced by `encode(H)`, if no action that has `l` in its add/delete
effect tables is active at layer `n`, then every model of the constraint
set assigns the post-value of `l` at `n` equal to its pre-value (the frame
axiom emitted by `encodeLiteralVariableSupport`). -/
theorem frame_axiom_holds (P : GroundProblem) (M : PModel) (H n l : Nat)
    (h : encodeOK P M H = true) (hn : n ≤ H) (hl : l < P.litCount)
    (hno : ∀ a, (a ∈ P.startAdd l ∨ a ∈ P.startDel l ∨
                 a ∈ P.endAdd l ∨ a ∈ P.endDel l) →
      M.staA a n = false ∧ M.endA a n = false) :
    M.posL l n = M.preL l n := by
  have hlayer := ((encodeOK_iff P M H).1 h).2.2.1 n hn
  have hsup := (((layerOK_iff P M n).1 hlayer).1 l hl).1
  have hadd : addActive P M l n = false := by
    cases hA : addActive P M l n
    · rfl
    · exfalso
      rcases (addActive_iff P M l n).1 hA with ⟨a, hmem, hact⟩ | ⟨a, hmem, hact⟩
      · rw [(hno a (Or.inl hmem)).1] at hact
        exact Bool.false_ne_true hact
      · rw [(hno a (Or.inr (Or.inr (Or.inl hmem)))).2] at hact
        exact Bool.false_ne_true hact
  have hdel : delActive P M l n = false := by
    cases hD : delActive P M l n
    · rfl
    · exfalso
      rcases (delActive_iff P M l n).1 hD with ⟨a, hmem, hact⟩ | ⟨a, hmem, hact⟩
      · rw [(hno a (Or.inr (Or.inl hmem))).1] at hact
        exact Bool.false_ne_true hact
      · rw [(hno a (Or.inr (Or.inr (Or.inr hmem)))).2] at hact
        exact Bool.false_ne_true hact
  cases hp : M.posL l n <;> cases hq : M.preL l n
  · rfl
  · simp [litSupportOK, hp, hq, hadd, hdel] at hsup
  · simp [litSupportOK, hp, hq, hadd, hdel] at hsup
  · rfl

/-- Witness for C1 on `nopProb` at horizon 1, layer 0, literal 0. -/
theorem frame_axiom_holds_witness :
    nopModel.posL 0 0 = nopModel.preL 0 0 :=
  frame_axiom_holds nopProb nopModel 1 0 0 (by decide) (by decide) (by decide)
    (fun a hmem => absurd hmem (by simp [nopProb]))

/-- The conflicting-effects ground problem: one literal, two actions;
action 0 adds literal 0 at start, action 1 deletes it at start. -/
def conflictProb : GroundProblem :=
  { litCount := 1, pneCount := 0, actCount := 2
    startAdd := fun _ => [0], startDel := fun _ => [1]
    endAdd := fun _ => [], endDel := fun _ => []
    startAssign := fun _ => [], endAssign := fun _ => []
    precond := fun _ => [], initLit := fun _ => false, initFn := fun _ => 0
    goal := [] }

/-- A valuation that makes both conflicting actions start at layer 0. -/
def conflictModel : PModel :=
  { preL := fun _ _ => false, posL := fun _ _ => true
    preF := fun _ _ => 0, posF := fun _ _ => 0
    staA := fun _ _ => true, endA := fun _ _ => false
    timeV := fun _ => 0 }

/-- C2: for every layer `n ≤ H` and ground literal `l`, if action `a` has
`l` in one of its add effect tables and action `b` has `l` in one of its
delete effect tables and the valuation activates both at layer `n`, then
the valuation falsifies the constraint set built by `encode(H)` — the
guarding mutual-exclusion constraint is always emitted, so the constraint
set is unsatisfiable together with the conflicting activations. -/
theorem conflicting_effects_unsat (P : GroundProblem) (M : PModel)
    (H n l a b : Nat)
    (ha : (a ∈ P.startAdd l ∧ M.staA a n = true) ∨
          (a ∈ P.endAdd l ∧ M.endA a n = true))
    (hb : (b ∈ P.startDel l ∧ M.staA b n = true) ∨
          (b ∈ P.endDel l ∧ M.endA b n = true))
    (hn : n ≤ H) (hl : l < P.litCount) :
    encodeOK P M H = false := by
  cases hE : encodeOK P M H
  · rfl
  · exfalso
    have hlayer := ((encodeOK_iff P M H).1 hE).2.2.1 n hn
    have hmux := (((layerOK_iff P M n).1 hlayer).1 l hl).2.2
    have hadd : addActive P M l n = true :=
      (addActive_iff P M l n).2
        (ha.imp (fun h2 => ⟨a, h2.1, h2.2⟩) (fun h2 => ⟨a, h2.1, h2.2⟩))
    have hdel : delActive P M l n = true :=
      (delActive_iff P M l n).2
        (hb.imp (fun h2 => ⟨b, h2.1, h2.2⟩) (fun h2 => ⟨b, h2.1, h2.2⟩))
    simp [litMutexOK, hadd, hdel] at hmux

/-- Witness for C2: on `conflictProb` with both actions starting at layer
0, the horizon-0 constraint set is falsified. -/
theorem conflicting_effects_unsat_witness :
    encodeOK conflictProb conflictModel 0 = false :=
  conflicting_effects_unsat conflictProb conflictModel 0 0 0 0 1
    (Or.inl ⟨by decide, rfl⟩) (Or.inl ⟨by decide, rfl⟩)
    (Nat.le_refl 0) (by decide)

/-- C3: every model of the constraint set built by `encode(H)` assigns
every ground literal's layer-0 pre-value its declared initial truth value
and every numeric fluent's layer-0 pre-value its declared initial value
(the constraints emitted once by `encodeInitialState` before layer 0). -/
theorem initial_state_fidelity (P : GroundProblem) (M : PModel) (H : Nat)
    (h : encodeOK P M H = true) :
    (∀ l, l < P.litCount → M.preL l 0 = P.initLit l) ∧
    (∀ f, f < P.pneCount → M.preF f 0 = P.initFn f) :=
  (initOK_iff P M).1 ((encodeOK_iff P M H).1 h).1

/-- Witness for C3 on `nopProb` at horizon 0. -/
theorem initial_state_fidelity_witness :
    nopModel.preL 0 0 = nopProb.initLit 0 ∧
    nopModel.preF 0 0 = nopProb.initFn 0 :=
  ⟨(initial_state_fidelity nopProb nopModel 0 (by decide)).1 0 (by decide),
   (initial_state_fidelity nopProb nopModel 0 (by decide)).2 0 (by decide)⟩

/-- C4: in every encoding produced by `encode(H)`, layer time never
decreases: every model assigns absolute times that are non-decreasing
across the layer sequence `0..H` (from the constraints
`time_vars[n] ≥ time_vars[n-1]` asserted by `encodeTimings`). -/
theorem layer_time_monotone (P : GroundProblem) (M : PModel) (H : Nat)
    (h : encodeOK P M H = true) :
    ∀ n m, n ≤ m → m ≤ H → M.timeV n ≤ M.timeV m := by
  have ht := (timingsOK_iff M H).1 ((encodeOK_iff P M H).1 h).2.1
  intro n m hnm
  induction hnm with
  | refl => intro _; exact le_refl _
  | step hk ih =>
    intro hmH
    have hlt := Nat.lt_of_succ_le hmH
    exact le_trans (ih (Nat.le_of_lt hlt)) (ht _ hlt)

/-- Witness for C4 on `nopProb` at horizon 1. -/
theorem layer_time_monotone_witness :
    nopModel.timeV 0 ≤ nopModel.timeV 1 :=
  layer_time_monotone nopProb nopModel 1 (by decide) 0 1 (by decide) (by decide)

/-- A list maps to `false` everywhere when the tested function does. -/
theorem any_of_all_false {α : Type} (l : List α) (p : α → Bool)
    (h : ∀ a, p a = false) : l.any p = false := by
  cases hA : l.any p
  · rfl
  · rcases List.any_eq_true.mp hA with ⟨x, _, hx⟩
    rw [h x] at hx
    exact absurd hx Bool.false_ne_true

/-- The no-op extension of a model past layer `H`: beyond `H` no action is
active, every literal and fluent keeps its layer-`H` post-value, and the
time stays at the layer-`H` time.  Used to extend a satisfying model of a
horizon-`H` encoding to any longer horizon. -/
def extendModel (M : PModel) (H : Nat) : PModel :=
  { preL := fun l n => if n ≤ H then M.preL l n else M.posL l H
    posL := fun l n => if n ≤ H then M.posL l n else M.posL l H
    preF := fun f n => if n ≤ H then M.preF f n else M.posF f H
    posF := fun f n => if n ≤ H then M.posF f n else M.posF f H
    staA := fun a n => if n ≤ H then M.staA a n else false
    endA := fun a n => if n ≤ H then M.endA a n else false
    timeV := fun n => if n ≤ H then M.timeV n else M.timeV H }

/-- C5: satisfiability of the encoding is monotone in the horizon: if the
constraint set for horizon `H` is satisfiable, the constraint set for any
horizon `H2 > H` is satisfiable as well — a satisfying model extends with
no-op layers. -/
theorem horizon_sat_monotone (P : GroundProblem) (H H2 : Nat) (hlt : H < H2)
    (hsat : ∃ M, encodeOK P M H = true) :
    ∃ M, encodeOK P M H2 = true := by
  obtain ⟨M, hM⟩ := hsat
  obtain ⟨hInit, hTime, hLayer, hLink, hGoal⟩ := (encodeOK_iff P M H).1 hM
  have ht := (timingsOK_iff M H).1 hTime
  refine ⟨extendModel M H, (encodeOK_iff P (extendModel M H) H2).2
    ⟨?_, ?_, ?_, ?_, ?_⟩⟩
  · -- initial-state constraints: layer 0 is below H, values agree with M
    rw [initOK_iff]
    obtain ⟨hIL, hIF⟩ := (initOK_iff P M).1 hInit
    constructor
    · intro l hl
      simpa [extendModel, Nat.zero_le] using hIL l hl
    · intro f hf
      simpa [extendModel, Nat.zero_le] using hIF f hf
  · -- timings: within H as in M, beyond H the time is constant
    rw [timingsOK_iff]
    intro n hn
    by_cases h1 : n + 1 ≤ H
    · have h0 : n ≤ H := le_trans (Nat.le_succ n) h1
      simpa [extendModel, h0, h1] using ht n (Nat.lt_of_succ_le h1)
    · by_cases h0 : n ≤ H
      · have hnH : n = H := by omega
        subst hnH
        simp [extendModel, h0, h1]
      · simp [extendModel, h0, h1]
  · -- per-layer constraints
    intro n hn
    by_cases hcase : n ≤ H
    · have hsame : layerOK P (extendModel M H) n = layerOK P M n := by
        simp only [layerOK, litSupportOK, litEffectOK, litMutexOK, fnSupportOK,
          condOK, addActive, delActive, asgActive, extendModel]
        simp [hcase]
      rw [hsame]
      exact hLayer n hcase
    · -- no activity beyond H; all values persist
      have hsta : ∀ a, (extendModel M H).staA a n = false := by
        intro a; simp [extendModel, hcase]
      have hend : ∀ a, (extendModel M H).endA a n = false := by
        intro a; simp [extendModel, hcase]
      have haddA : ∀ l, addActive P (extendModel M H) l n = false := by
        intro l
        rw [addActive, any_of_all_false _ _ (fun a => hsta a),
          any_of_all_false _ _ (fun a => hend a)]
        rfl
      have hdelA : ∀ l, delActive P (extendModel M H) l n = false := by
        intro l
        rw [delActive, any_of_all_false _ _ (fun a => hsta a),
          any_of_all_false _ _ (fun a => hend a)]
        rfl
      rw [layerOK_iff]
      refine ⟨?_, ?_, ?_⟩
      · intro l hl
        have hpp : (extendModel M H).posL l n = (extendModel M H).preL l n := by
          simp [extendModel, hcase]
        refine ⟨?_, ?_, ?_⟩
        · simp [litSupportOK, haddA l, hdelA l, hpp]
        · simp [litEffectOK, haddA l, hdelA l]
        · simp [litMutexOK, haddA l]
      · intro f hf
        simp [fnSupportOK, extendModel, hcase]
      · intro a ha
        simp [condOK, hsta a]
  · -- chaining constraints between consecutive layers
    intro n hn
    rw [linkOK_iff]
    by_cases h1 : n + 1 ≤ H
    · have h0 : n ≤ H := le_trans (Nat.le_succ n) h1
      obtain ⟨hL, hF⟩ := (linkOK_iff P M n).1 (hLink n (Nat.lt_of_succ_le h1))
      constructor
      · intro l hl
        simpa [extendModel, h0, h1] using hL l hl
      · intro f hf
        simpa [extendModel, h0, h1] using hF f hf
    · by_cases h0 : n ≤ H
      · have hnH : n = H := by omega
        subst hnH
        constructor
        · intro l hl; simp [extendModel, h0, h1]
        · intro f hf; simp [extendModel, h0, h1]
      · constructor
        · intro l hl; simp [extendModel, h0, h1]
        · intro f hf; simp [extendModel, h0, h1]
  · -- goal constraints transfer to the final layer of the longer horizon
    rw [goalOK_iff]
    intro lb hmem
    have hH2 : ¬ (H2 ≤ H) := by omega
    simpa [extendModel, hH2] using (goalOK_iff P M H).1 hGoal lb hmem

/-- Witness for C5: `nopProb` is satisfiable at horizon 0, hence at
horizon 1. -/
theorem horizon_sat_monotone_witness :
    ∃ M, encodeOK nopProb M 1 = true :=
  horizon_sat_monotone nopProb 0 1 (by decide) ⟨nopModel, by decide⟩

end SMTPlan
